import Mathlib

/-!
Verification of the cloudpods sync engine against its specification.

The definitions below are a shallow embedding of the Go source:
  - pkg/compute/models (zones, cloudproviders, sync ranges, sync state machine)
  - pkg/compute/tasks/cloud_account_sync_task.go
Database queries become explicit list lookups, database rows become
structures, and fallible external calls become Except values or boolean
failure oracles threaded in as explicit inputs.
-/

namespace Cloudpods

/-- Sync status values (api.CLOUD_PROVIDER_SYNC_STATUS_*). -/
inductive SyncStatus where
  | idle
  | queuing
  | queued
  | syncing
  | error
deriving DecidableEq, Repr

/-- Error taxonomy used by the embedded operations (httperrors + sql.ErrNoRows).
`notFound` carries the identifier that failed to resolve. -/
inductive HttpErr where
  | invalidStatus
  | notFound (ident : String)
  | notEmpty
  | general
deriving DecidableEq, Repr

/-- A cloudprovider-region binding (SCloudproviderregion), the child of a
cloudprovider in the sync state machine. Only the fields the embedded
operations read are kept. -/
structure Cloudproviderregion where
  enabled : Bool
  syncStatus : SyncStatus
deriving DecidableEq, Repr

/-- A cloudprovider row (SCloudprovider with its SSyncableBaseResource part).
`regions` is the result of GetCloudproviderRegions (all bindings of this
provider, enabled or not). `canSync` is the value of CanSync; CanSync is
modelled from the spec: it holds when the entity is currently idle, or when
the rate-limit window since the last sync has passed. -/
structure Cloudprovider where
  enabled : Bool
  syncStatus : SyncStatus
  lastSyncEndAt : Option Nat
  canSync : Bool
  regions : List Cloudproviderregion
deriving DecidableEq, Repr

/-- A cloudaccount row (the fields the sync state machine reads). -/
structure Cloudaccount where
  enabled : Bool
  syncStatus : SyncStatus
  lastSyncEndAt : Option Nat
deriving DecidableEq, Repr

/-- api.SyncRangeInput / SSyncRange: the requested sync scope. -/
structure SyncRangeInput where
  region : List String
  zone : List String
  host : List String
  resources : List String
  fullSync : Bool
  deepSync : Bool
  force : Bool
deriving DecidableEq, Repr

/-- SCloudprovider.getSyncStatus2: counts the provider's region bindings whose
sync_status is not idle; any such binding makes the aggregate status syncing. -/
def Cloudprovider.getSyncStatus2 (p : Cloudprovider) : SyncStatus :=
  if (p.regions.filter (fun c => c.syncStatus ≠ SyncStatus.idle)).length > 0 then
    SyncStatus.syncing
  else
    SyncStatus.idle

/-- SCloudprovider.markEndSync: set the provider idle and record the
last-sync-end timestamp. -/
def Cloudprovider.markEndSync (now : Nat) (p : Cloudprovider) : Cloudprovider :=
  { p with syncStatus := SyncStatus.idle, lastSyncEndAt := some now }

/-- The locked body of SCloudprovider.markEndSyncWithLock: a no-op when the
provider is already idle or when any region binding is still not idle;
otherwise markEndSync. -/
def Cloudprovider.markEndSyncLocal (now : Nat) (p : Cloudprovider) : Cloudprovider :=
  if p.syncStatus = SyncStatus.idle then p
  else if p.getSyncStatus2 ≠ SyncStatus.idle then p
  else p.markEndSync now

/-- Modelled from the spec: SCloudaccount.MarkEndSyncWithLock is not under
src/ (only its callers are). Per spec 4.3 the account-level completion
mirrors the provider-level one: it transitions syncing to idle, recording the
last-sync-end timestamp, only when every child cloudprovider has itself
returned to idle. `providerStatuses` is the list of the account's providers'
sync statuses at the time of the call. -/
def Cloudaccount.MarkEndSyncWithLock (now : Nat) (providerStatuses : List SyncStatus)
    (a : Cloudaccount) : Cloudaccount :=
  if a.syncStatus = SyncStatus.idle then a
  else if (providerStatuses.filter (fun s => s ≠ SyncStatus.idle)).length > 0 then a
  else { a with syncStatus := SyncStatus.idle, lastSyncEndAt := some now }

/-- SCloudprovider.markEndSyncWithLock: the locked provider-local completion
followed by the unconditional upward propagation to the owning cloudaccount.
`siblings` are the sync statuses of the account's other providers (the
account-level child query sees the just-updated row of this provider plus its
siblings). -/
def Cloudprovider.markEndSyncWithLock (now : Nat) (p : Cloudprovider)
    (siblings : List SyncStatus) (a : Cloudaccount) : Cloudprovider × Cloudaccount :=
  let p2 := p.markEndSyncLocal now
  (p2, a.MarkEndSyncWithLock now (p2.syncStatus :: siblings))

/-- Modelled from the spec: SCloudproviderregion.cancelStartingSync is not
under src/. Per spec 4.3 cancellation reverts a child still in queuing back
to idle and has no effect otherwise. -/
def Cloudproviderregion.cancelStartingSync (c : Cloudproviderregion) : Cloudproviderregion :=
  if c.syncStatus = SyncStatus.queuing then { c with syncStatus := SyncStatus.idle } else c

/-- SCloudprovider.cancelStartingSync: when the provider is in queuing,
cancel every region binding and revert the provider to idle; otherwise do
nothing. -/
def Cloudprovider.cancelStartingSync (p : Cloudprovider) : Cloudprovider :=
  if p.syncStatus = SyncStatus.queuing then
    { p with regions := p.regions.map Cloudproviderregion.cancelStartingSync,
             syncStatus := SyncStatus.idle }
  else p

/-- Modelled from the spec: SCloudproviderregion.markStartingSync is not
under src/. It moves an enabled child binding into queuing. -/
def Cloudproviderregion.markStartingSync (c : Cloudproviderregion) : Cloudproviderregion :=
  { c with syncStatus := SyncStatus.queuing }

/-- SCloudprovider.markStartSync: move the provider to queued and every
enabled region binding to queuing. -/
def Cloudprovider.markStartSync (p : Cloudprovider) : Cloudprovider :=
  { p with syncStatus := SyncStatus.queued,
           regions := p.regions.map (fun c =>
             if c.enabled then c.markStartingSync else c) }

/-- SCloudprovider.ValidateDeleteCondition: refuse deletion of an enabled
provider, refuse deletion of a provider whose sync status is not idle, and
otherwise fall through to the base-class check (passed in as `base`, an
external collaborator). -/
def Cloudprovider.ValidateDeleteCondition (p : Cloudprovider)
    (base : Except HttpErr Unit) : Except HttpErr Unit :=
  if p.enabled then Except.error HttpErr.invalidStatus
  else if p.syncStatus ≠ SyncStatus.idle then Except.error HttpErr.invalidStatus
  else base

/-- SSyncRange.NeedSyncInfo. -/
def SyncRangeInput.NeedSyncInfo (sr : SyncRangeInput) : Bool :=
  if sr.fullSync then true
  else if sr.region.length > 0 || sr.zone.length > 0 || sr.host.length > 0
      || sr.resources.length > 0 then true
  else false

/-- SCloudprovider.PerformSync. The owning cloudaccount is passed in (the
GetCloudaccount fetch, an external collaborator, succeeding). The result is
the SSyncRange handed to StartSyncCloudProviderInfoTask when the sync task is
started, or the refusal error. -/
def Cloudprovider.PerformSync (p : Cloudprovider) (account : Cloudaccount)
    (input : SyncRangeInput) : Except HttpErr SyncRangeInput :=
  if !p.enabled then Except.error HttpErr.invalidStatus
  else if !account.enabled then Except.error HttpErr.invalidStatus
  else
    let syncRange :=
      if input.fullSync || input.region.length > 0 || input.zone.length > 0
          || input.host.length > 0 || input.resources.length > 0 then
        { input with deepSync := true }
      else input
    if p.canSync || syncRange.force then Except.ok syncRange
    else Except.error HttpErr.invalidStatus

/-! ### Scope resolution (SSyncRange.Normalize) -/

/-- A cloudregion row (the identity fields FetchByIdOrName reads). -/
structure Cloudregion where
  id : String
  name : String
deriving DecidableEq, Repr

/-- A zone row: identity plus the owning-region foreign key. -/
structure ZoneRow where
  id : String
  name : String
  cloudregionId : String
deriving DecidableEq, Repr

/-- A host row: identity plus the owning-zone foreign key. -/
structure HostRow where
  id : String
  name : String
  zoneId : String
deriving DecidableEq, Repr

/-- The slice of the relational store the scope resolver queries. -/
structure ModelDb where
  regions : List Cloudregion
  zones : List ZoneRow
  hosts : List HostRow
deriving DecidableEq, Repr

/-- db.FetchByIdOrName against the region table: match by id first, then by
name; none models sql.ErrNoRows. -/
def fetchRegionByIdOrName (db : ModelDb) (s : String) : Option Cloudregion :=
  match db.regions.find? (fun r => r.id = s) with
  | some r => some r
  | none => db.regions.find? (fun r => r.name = s)

/-- db.FetchByIdOrName against the zone table. -/
def fetchZoneByIdOrName (db : ModelDb) (s : String) : Option ZoneRow :=
  match db.zones.find? (fun z => z.id = s) with
  | some z => some z
  | none => db.zones.find? (fun z => z.name = s)

/-- db.FetchByIdOrName against the host table. -/
def fetchHostByIdOrName (db : ModelDb) (s : String) : Option HostRow :=
  match db.hosts.find? (fun h => h.id = s) with
  | some h => some h
  | none => db.hosts.find? (fun h => h.name = s)

/-- SZone.GetRegion: fetch the owning region by the zone's cloudregion_id. -/
def ZoneRow.getRegion (db : ModelDb) (z : ZoneRow) : Option Cloudregion :=
  db.regions.find? (fun r => r.id = z.cloudregionId)

/-- SHost.GetZone (defined outside src/, a plain fetch by the host's zone_id
foreign key, as used by normalizeHostIds). -/
def HostRow.getZone (db : ModelDb) (h : HostRow) : Option ZoneRow :=
  db.zones.find? (fun z => z.id = h.zoneId)

/-- SSyncRange.normalizeRegionIds: replace each listed region identifier by
the id of the region it resolves to; the first unresolved identifier aborts
with NotFound. -/
def normalizeRegionIds (db : ModelDb) : List String → Except HttpErr (List String)
  | [] => Except.ok []
  | r :: rest =>
    match fetchRegionByIdOrName db r with
    | none => Except.error (HttpErr.notFound r)
    | some reg =>
      match normalizeRegionIds db rest with
      | Except.error e => Except.error e
      | Except.ok rs => Except.ok (reg.id :: rs)

/-- SSyncRange.normalizeZoneIds: resolve each zone identifier; when its
owning region exists, replace the entry with the zone id and append the
region id to the region set (deduplicated); when the owning region is
missing, keep the entry and continue. The state is (zone entries processed,
region set); the first unresolved identifier aborts with NotFound. -/
def normalizeZoneIds (db : ModelDb) (region : List String) :
    List String → Except HttpErr (List String × List String)
  | [] => Except.ok ([], region)
  | z :: rest =>
    match fetchZoneByIdOrName db z with
    | none => Except.error (HttpErr.notFound z)
    | some zone =>
      match zone.getRegion db with
      | none =>
        match normalizeZoneIds db region rest with
        | Except.error e => Except.error e
        | Except.ok (zs, rg) => Except.ok (z :: zs, rg)
      | some reg =>
        let region2 := if region.contains reg.id then region else region ++ [reg.id]
        match normalizeZoneIds db region2 rest with
        | Except.error e => Except.error e
        | Except.ok (zs, rg) => Except.ok (zone.id :: zs, rg)

/-- SSyncRange.normalizeHostIds: resolve each host identifier; when its
owning zone and that zone's owning region both exist, replace the entry with
the host id and append the zone id and region id to their sets
(deduplicated); otherwise keep the entry and continue. The state is (host
entries processed, zone set, region set). -/
def normalizeHostIds (db : ModelDb) (zone region : List String) :
    List String → Except HttpErr (List String × List String × List String)
  | [] => Except.ok ([], zone, region)
  | h :: rest =>
    match fetchHostByIdOrName db h with
    | none => Except.error (HttpErr.notFound h)
    | some host =>
      match host.getZone db with
      | none =>
        match normalizeHostIds db zone region rest with
        | Except.error e => Except.error e
        | Except.ok (hs, zs, rs) => Except.ok (h :: hs, zs, rs)
      | some z =>
        match z.getRegion db with
        | none =>
          match normalizeHostIds db zone region rest with
          | Except.error e => Except.error e
          | Except.ok (hs, zs, rs) => Except.ok (h :: hs, zs, rs)
        | some reg =>
          let zone2 := if zone.contains z.id then zone else zone ++ [z.id]
          let region2 := if region.contains reg.id then region else region ++ [reg.id]
          match normalizeHostIds db zone2 region2 rest with
          | Except.error e => Except.error e
          | Except.ok (hs, zs, rs) => Except.ok (host.id :: hs, zs, rs)

/-- SSyncRange.Normalize: region identifiers, then zone identifiers, then
host identifiers (an empty list is replaced by an empty list, which the
loops reproduce). -/
def SyncRangeInput.Normalize (db : ModelDb) (sr : SyncRangeInput) :
    Except HttpErr SyncRangeInput :=
  match normalizeRegionIds db sr.region with
  | Except.error e => Except.error e
  | Except.ok region1 =>
    match normalizeZoneIds db region1 sr.zone with
    | Except.error e => Except.error e
    | Except.ok (zone1, region2) =>
      match normalizeHostIds db zone1 region2 sr.host with
      | Except.error e => Except.error e
      | Except.ok (host1, zone2, region3) =>
        Except.ok { sr with region := region3, zone := zone2, host := host1 }

/-- Spec-side description of the resolution order: the first identifier, in
the region-zone-host processing order, that resolves to no stored record.
Used to compare Normalize against the spec's all-or-nothing contract. -/
def firstUnresolved (db : ModelDb) (sr : SyncRangeInput) : Option String :=
  match sr.region.find? (fun r => (fetchRegionByIdOrName db r).isNone) with
  | some r => some r
  | none =>
    match sr.zone.find? (fun z => (fetchZoneByIdOrName db z).isNone) with
    | some z => some z
    | none => sr.host.find? (fun h => (fetchHostByIdOrName db h).isNone)

/-- Referential integrity of the store: every zone's cloudregion_id names an
existing region and every host's zone_id names an existing zone. -/
def ModelDb.wf (db : ModelDb) : Prop :=
  (∀ z ∈ db.zones, ∃ r ∈ db.regions, r.id = z.cloudregionId) ∧
  (∀ h ∈ db.hosts, ∃ z ∈ db.zones, z.id = h.zoneId)

instance (db : ModelDb) : Decidable db.wf := by
  unfold ModelDb.wf
  infer_instance

/-! ### Comparator and zone synchronizer (SZoneManager.SyncZones) -/

/-- Modelled from the spec: compare.CompareSets is not under src/ (only its
call sites are). Per spec 4.1 it partitions an ordered local collection and
an ordered remote collection by exact matching-key equality into removed,
aligned common pairs and added, and fails with a comparison error when key
extraction fails for any remote element (a malformed record, key = none).
Matched locals are paired with the first remote carrying their key. -/
def CompareSets {L R : Type} (lkey : L → String) (rkey : R → Option String)
    (locals : List L) (remotes : List R) :
    Except HttpErr (List L × List (L × R) × List R) :=
  if remotes.any (fun r => (rkey r).isNone) then Except.error HttpErr.general
  else
    Except.ok
      (locals.filter (fun l => !remotes.any (fun r => rkey r = some (lkey l))),
       locals.filterMap (fun l =>
         (remotes.find? (fun r => rkey r = some (lkey l))).map (fun r => (l, r))),
       remotes.filter (fun r => !locals.any (fun l => some (lkey l) = rkey r)))

/-- api.ZoneGeneralUsage restricted to the dependent-resource counts that
SZone.GeneralUsage computes from the store (the enabled/baremetal host
figures are sub-counts of `hosts` and add no information to emptiness). -/
structure ZoneUsage where
  hosts : Nat
  wires : Nat
  networks : Nat
  storages : Nat
deriving DecidableEq, Repr

/-- ZoneGeneralUsage.IsEmpty: no dependent hosts, wires, networks or
storages. -/
def ZoneUsage.isEmpty (u : ZoneUsage) : Bool :=
  u.hosts = 0 && u.wires = 0 && u.networks = 0 && u.storages = 0

/-- A local zone record (SZone) with the attributes the synchronizer reads
and writes; `usage` carries the dependent-resource counts of GeneralUsage. -/
structure LocalZone where
  name : String
  status : String
  externalId : String
  isEmulated : Bool
  cloudregionId : String
  usage : ZoneUsage
deriving DecidableEq, Repr

/-- A remote zone record (cloudprovider.ICloudZone); `globalId` is the
matching key, none standing for a record whose key extraction fails. -/
structure RemoteZone where
  globalId : Option String
  name : String
  status : String
  isEmulated : Bool
deriving DecidableEq, Repr

/-- compare.SyncResult: counters of one reconciliation pass; `fatal` records
a pass-level error (syncResult.Error). -/
structure SyncResult where
  addCnt : Nat
  updateCnt : Nat
  delCnt : Nat
  addErrCnt : Nat
  updateErrCnt : Nat
  delErrCnt : Nat
  fatal : Bool
deriving DecidableEq, Repr

/-- The all-zero sync result. -/
def SyncResult.empty : SyncResult :=
  { addCnt := 0, updateCnt := 0, delCnt := 0,
    addErrCnt := 0, updateErrCnt := 0, delErrCnt := 0, fatal := false }

/-- External collaborators of one SyncZones pass, made explicit: the local
fetch (region.GetZones) and the storage-layer failure oracles of the
per-item update and insert operations. -/
structure ZoneSyncEnv where
  fetchZones : Except String (List LocalZone)
  updateFails : LocalZone → RemoteZone → Bool
  addFails : RemoteZone → Bool

/-- SZone.ValidateDeleteCondition: refuse deleting a zone that still has
dependent resources (not-empty error); the base-class check is an external
collaborator modelled as passing. -/
def LocalZone.ValidateDeleteCondition (z : LocalZone) : Except HttpErr Unit :=
  if !z.usage.isEmpty then Except.error HttpErr.notEmpty else Except.ok ()

/-- SZone.syncRemoveCloudZone: delete only after ValidateDeleteCondition
passes (RemoveI18ns and Delete are external collaborators modelled as
succeeding once the precondition holds). -/
def LocalZone.syncRemoveCloudZone (z : LocalZone) : Except HttpErr Unit :=
  z.ValidateDeleteCondition

/-- SZone.syncWithCloudZone: copy the mutable remote attributes onto the
local record; the persistence layer may fail (env oracle). -/
def LocalZone.syncWithCloudZone (env : ZoneSyncEnv) (z : LocalZone) (ext : RemoteZone)
    (regionId : String) : Except HttpErr LocalZone :=
  if env.updateFails z ext then Except.error HttpErr.general
  else Except.ok { z with name := ext.name, status := ext.status,
                          isEmulated := ext.isEmulated, cloudregionId := regionId }

/-- SZoneManager.newFromCloudZone: insert a new local record copied from the
remote one (name generation and insertion may fail, env oracle). -/
def newFromCloudZone (env : ZoneSyncEnv) (ext : RemoteZone) (regionId : String) :
    Except HttpErr LocalZone :=
  if env.addFails ext then Except.error HttpErr.general
  else Except.ok { name := ext.name, status := ext.status,
                   externalId := ext.globalId.getD "", isEmulated := ext.isEmulated,
                   cloudregionId := regionId,
                   usage := { hosts := 0, wires := 0, networks := 0, storages := 0 } }

/-- The removed-partition loop of SyncZones: per-item delete errors are
recorded and the loop continues. Returns (zones actually deleted, delete
count, delete-error count). -/
def processRemoved : List LocalZone → List LocalZone × Nat × Nat
  | [] => ([], 0, 0)
  | z :: rest =>
    let (ds, c, e) := processRemoved rest
    match z.syncRemoveCloudZone with
    | Except.error _ => (ds, c, e + 1)
    | Except.ok _ => (z :: ds, c + 1, e)

/-- The matched-pairs loop of SyncZones: per-item update errors are recorded
and the loop continues. Returns (updated locals, synced remotes, update
count, update-error count). -/
def processCommon (env : ZoneSyncEnv) (regionId : String) :
    List (LocalZone × RemoteZone) → List LocalZone × List RemoteZone × Nat × Nat
  | [] => ([], [], 0, 0)
  | (z, ext) :: rest =>
    let (ls, rs, c, e) := processCommon env regionId rest
    match z.syncWithCloudZone env ext regionId with
    | Except.error _ => (ls, rs, c, e + 1)
    | Except.ok z2 => (z2 :: ls, ext :: rs, c + 1, e)

/-- The added-partition loop of SyncZones: per-item insert errors are
recorded and the loop continues. Returns (new locals, synced remotes, add
count, add-error count). -/
def processAdded (env : ZoneSyncEnv) (regionId : String) :
    List RemoteZone → List LocalZone × List RemoteZone × Nat × Nat
  | [] => ([], [], 0, 0)
  | ext :: rest =>
    let (ls, rs, c, e) := processAdded env regionId rest
    match newFromCloudZone env ext regionId with
    | Except.error _ => (ls, rs, c, e + 1)
    | Except.ok z2 => (z2 :: ls, ext :: rs, c + 1, e)

/-- The observable outcome of one SyncZones pass. `deleted` lists the local
records the pass actually deleted. -/
structure ZoneSyncOutput where
  localZones : List LocalZone
  remoteZones : List RemoteZone
  result : SyncResult
  deleted : List LocalZone
deriving DecidableEq, Repr

/-- SZoneManager.SyncZones: fetch the local records, partition them against
the remote records with CompareSets, then run the delete, update and add
loops; a local-fetch or comparator failure aborts the pass with the error
recorded on the result, while per-item errors only bump the error counters. -/
def SyncZones (env : ZoneSyncEnv) (regionId : String) (zones : List RemoteZone) :
    ZoneSyncOutput :=
  match env.fetchZones with
  | Except.error _ =>
    { localZones := [], remoteZones := [],
      result := { SyncResult.empty with fatal := true }, deleted := [] }
  | Except.ok dbZones =>
    match CompareSets LocalZone.externalId RemoteZone.globalId dbZones zones with
    | Except.error _ =>
      { localZones := [], remoteZones := [],
        result := { SyncResult.empty with fatal := true }, deleted := [] }
    | Except.ok (removed, pairs, added) =>
      let (deleted, delCnt, delErrCnt) := processRemoved removed
      let (uls, urs, updCnt, updErrCnt) := processCommon env regionId pairs
      let (als, ars, addCnt, addErrCnt) := processAdded env regionId added
      { localZones := uls ++ als, remoteZones := urs ++ ars,
        result := { addCnt := addCnt, updateCnt := updCnt, delCnt := delCnt,
                    addErrCnt := addErrCnt, updateErrCnt := updErrCnt,
                    delErrCnt := delErrCnt, fatal := false },
        deleted := deleted }

/-! ### Account-level sync task (CloudAccountSyncInfoTask) -/

/-- The entities one account-level sync pass touches: the owning cloudaccount
and its cloudprovider rows. -/
structure AccountSyncWorld where
  account : Cloudaccount
  providers : List Cloudprovider
deriving DecidableEq, Repr

/-- External inputs of one run of CloudAccountSyncInfoTask: whether the
OnInit task body (SyncCallSyncAccountTask, an external collaborator outside
src/) errors, the optional sync_range task parameter, whether the
account-level resource sync errors (its error is only logged), and a
per-provider failure oracle for the fanned-out provider sub-tasks. -/
structure AccountTaskEnv where
  bodyErr : Bool
  syncRange : Option SyncRangeInput
  resourceSyncErr : Bool
  subtaskFails : Cloudprovider → Bool

/-- Modelled from the spec: SCloudaccount.MarkSyncing is not under src/; it
moves the account into syncing when a provider-level sync starts under it. -/
def Cloudaccount.MarkSyncing (a : Cloudaccount) : Cloudaccount :=
  { a with syncStatus := SyncStatus.syncing }

/-- Modelled from the spec: CloudProviderSyncInfoTask (the per-provider
sub-task started by StartSyncCloudProviderInfoTask) is not under src/. Per
spec 4.4, whether its stages succeed or fail it finishes by driving the
provider and its region bindings back to idle, recording the last-sync-end
timestamp, and reports its outcome to the parent task. -/
def runProviderSubtask (now : Nat) (fails : Bool) (p : Cloudprovider) :
    Cloudprovider × Bool :=
  ({ p with syncStatus := SyncStatus.idle, lastSyncEndAt := some now,
            regions := p.regions.map (fun c => { c with syncStatus := SyncStatus.idle }) },
   fails)

/-- The default sync range OnCloudaccountSyncReady builds when the task
carries no sync_range parameter: a full deep sync. -/
def defaultFullSyncRange : SyncRangeInput :=
  { region := [], zone := [], host := [], resources := [],
    fullSync := true, deepSync := true, force := false }

/-- One run of CloudAccountSyncInfoTask over the world, from OnInit to the
terminal stage callback. Gives the final world together with whether the
task ended failed (SetStageFailed, i.e. OnCloudaccountSyncReadyFailed or
OnCloudaccountSyncCompleteFailed fired).

Tracing the source: the OnInit task body runs SyncCallSyncAccountTask and on
error marks the account end-sync before the failure surfaces to
OnCloudaccountSyncReadyFailed (which only logs). On success
OnCloudaccountSyncReady parses the range; a range that needs no sync info
short-circuits to OnCloudaccountSyncComplete; otherwise the account-level
resources are synced (errors logged only) and a sub-task is started per
enabled provider (StartSyncCloudProviderInfoTask: MarkSyncing on the
account, markStartSync on the provider). Once every sub-task finishes, any
failure routes to OnCloudaccountSyncCompleteFailed, otherwise to
OnCloudaccountSyncComplete; both mark the account end-sync. -/
def runCloudAccountSyncInfoTask (now : Nat) (env : AccountTaskEnv)
    (w : AccountSyncWorld) : AccountSyncWorld × Bool :=
  if env.bodyErr then
    ({ w with account :=
        w.account.MarkEndSyncWithLock now (w.providers.map (fun p => p.syncStatus)) },
     true)
  else
    let sr := match env.syncRange with
      | some s => s
      | none => defaultFullSyncRange
    if !sr.NeedSyncInfo then
      ({ w with account :=
          w.account.MarkEndSyncWithLock now (w.providers.map (fun p => p.syncStatus)) },
       false)
    else
      let enabled := w.providers.filter (fun p => p.enabled)
      if enabled.length = 0 then
        ({ w with account :=
            w.account.MarkEndSyncWithLock now (w.providers.map (fun p => p.syncStatus)) },
         false)
      else
        let providers2 := w.providers.map (fun p =>
          if p.enabled then (runProviderSubtask now (env.subtaskFails p) p.markStartSync).1
          else p)
        let anyFail := enabled.any env.subtaskFails
        let acc2 := w.account.MarkSyncing
        ({ account := acc2.MarkEndSyncWithLock now (providers2.map (fun p => p.syncStatus)),
           providers := providers2 },
         anyFail)

/-! ### Helper lemmas -/

theorem getSyncStatus2_eq_idle_iff (p : Cloudprovider) :
    p.getSyncStatus2 = SyncStatus.idle ↔
      ∀ c ∈ p.regions, c.syncStatus = SyncStatus.idle := by
  unfold Cloudprovider.getSyncStatus2
  split
  next hpos =>
    constructor
    · intro h
      exact absurd h (by simp)
    · intro hall
      exfalso
      obtain ⟨c, hc⟩ := List.exists_mem_of_length_pos hpos
      have hm := List.mem_filter.mp hc
      have hne : c.syncStatus ≠ SyncStatus.idle := by simpa using hm.2
      exact hne (hall c hm.1)
  next hpos =>
    constructor
    · intro _ c hc
      by_contra hne
      apply hpos
      apply List.length_pos.mpr
      intro hnil
      have hm : c ∈ p.regions.filter (fun c => c.syncStatus ≠ SyncStatus.idle) := by
        simp [List.mem_filter, hc, hne]
      rw [hnil] at hm
      cases hm
    · intro _
      rfl

theorem account_mark_end_all_idle (now : Nat) (sts : List SyncStatus) (a : Cloudaccount)
    (h : ∀ s ∈ sts, s = SyncStatus.idle) :
    (a.MarkEndSyncWithLock now sts).syncStatus = SyncStatus.idle := by
  unfold Cloudaccount.MarkEndSyncWithLock
  split
  next ha => exact ha
  next ha =>
    split
    next hpos =>
      exfalso
      obtain ⟨s, hs⟩ := List.exists_mem_of_length_pos hpos
      have hm := List.mem_filter.mp hs
      have hne : s ≠ SyncStatus.idle := by simpa using hm.2
      exact hne (h s hm.1)
    next => rfl

theorem account_mark_end_stamp (now : Nat) (sts : List SyncStatus) (a : Cloudaccount)
    (h : ∀ s ∈ sts, s = SyncStatus.idle) (hane : a.syncStatus ≠ SyncStatus.idle) :
    a.MarkEndSyncWithLock now sts =
      { a with syncStatus := SyncStatus.idle, lastSyncEndAt := some now } := by
  unfold Cloudaccount.MarkEndSyncWithLock
  split
  next ha => exact absurd ha hane
  next =>
    split
    next hpos =>
      exfalso
      obtain ⟨s, hs⟩ := List.exists_mem_of_length_pos hpos
      have hm := List.mem_filter.mp hs
      have hne : s ≠ SyncStatus.idle := by simpa using hm.2
      exact hne (h s hm.1)
    next => rfl

theorem fetchZone_mem (db : ModelDb) (s : String) (zone : ZoneRow)
    (h : fetchZoneByIdOrName db s = some zone) : zone ∈ db.zones := by
  unfold fetchZoneByIdOrName at h
  cases hid : db.zones.find? (fun z => z.id = s) with
  | some z =>
    rw [hid] at h
    cases h
    exact List.mem_of_find?_eq_some hid
  | none =>
    rw [hid] at h
    exact List.mem_of_find?_eq_some h

theorem fetchHost_mem (db : ModelDb) (s : String) (host : HostRow)
    (h : fetchHostByIdOrName db s = some host) : host ∈ db.hosts := by
  unfold fetchHostByIdOrName at h
  cases hid : db.hosts.find? (fun x => x.id = s) with
  | some x =>
    rw [hid] at h
    cases h
    exact List.mem_of_find?_eq_some hid
  | none =>
    rw [hid] at h
    exact List.mem_of_find?_eq_some h

theorem getRegion_of_wf (db : ModelDb) (hwf : db.wf) (zone : ZoneRow)
    (hz : zone ∈ db.zones) :
    ∃ reg, zone.getRegion db = some reg ∧ reg.id = zone.cloudregionId := by
  obtain ⟨r, hr, hrid⟩ := hwf.1 zone hz
  cases hfind : zone.getRegion db with
  | some reg =>
    refine ⟨reg, rfl, ?_⟩
    have := List.find?_some hfind
    simpa using this
  | none =>
    exfalso
    unfold ZoneRow.getRegion at hfind
    rw [List.find?_eq_none] at hfind
    exact absurd (by simpa using hrid) (by simpa using hfind r hr)

theorem getZone_of_wf (db : ModelDb) (hwf : db.wf) (host : HostRow)
    (hh : host ∈ db.hosts) :
    ∃ z, host.getZone db = some z ∧ z ∈ db.zones ∧ z.id = host.zoneId := by
  obtain ⟨z0, hz0, hzid⟩ := hwf.2 host hh
  cases hfind : host.getZone db with
  | some z =>
    refine ⟨z, rfl, List.mem_of_find?_eq_some hfind, ?_⟩
    have := List.find?_some hfind
    simpa using this
  | none =>
    exfalso
    unfold HostRow.getZone at hfind
    rw [List.find?_eq_none] at hfind
    exact absurd (by simpa using hzid) (by simpa using hfind z0 hz0)

theorem normalizeRegionIds_ok_of_all_some (db : ModelDb) :
    ∀ l : List String, (∀ r ∈ l, (fetchRegionByIdOrName db r).isSome = true) →
      ∃ out, normalizeRegionIds db l = Except.ok out := by
  intro l
  induction l with
  | nil => intro _; exact ⟨[], rfl⟩
  | cons r rest ih =>
    intro h
    obtain ⟨reg, hreg⟩ := Option.isSome_iff_exists.mp (h r (List.mem_cons_self r rest))
    obtain ⟨out, hout⟩ := ih (fun x hx => h x (List.mem_cons_of_mem r hx))
    exact ⟨reg.id :: out, by simp [normalizeRegionIds, hreg, hout]⟩

theorem normalizeRegionIds_error_at_first (db : ModelDb) :
    ∀ (l : List String) (u : String),
      l.find? (fun r => (fetchRegionByIdOrName db r).isNone) = some u →
      normalizeRegionIds db l = Except.error (HttpErr.notFound u) := by
  intro l
  induction l with
  | nil => intro u h; cases h
  | cons r rest ih =>
    intro u h
    by_cases hr : ((fetchRegionByIdOrName db r).isNone : Bool) = true
    · simp only [List.find?_cons, hr] at h
      cases h
      have hnone : fetchRegionByIdOrName db r = none := Option.isNone_iff_eq_none.mp hr
      simp [normalizeRegionIds, hnone]
    · have hrf : (fetchRegionByIdOrName db r).isNone = false := by
        cases hfetch : fetchRegionByIdOrName db r
        · exact absurd (by simp [hfetch]) hr
        · simp [hfetch]
      simp only [List.find?_cons, hrf] at h
      have herr := ih u h
      have hr2 : (fetchRegionByIdOrName db r).isSome = true := by
        cases hfetch : fetchRegionByIdOrName db r
        · simp [hfetch] at hr
        · simp
      obtain ⟨reg, hreg⟩ := Option.isSome_iff_exists.mp hr2
      simp [normalizeRegionIds, hreg, herr]

theorem normalizeZoneIds_ok_of_all_some (db : ModelDb) :
    ∀ (l region : List String),
      (∀ z ∈ l, (fetchZoneByIdOrName db z).isSome = true) →
      ∃ out, normalizeZoneIds db region l = Except.ok out := by
  intro l
  induction l with
  | nil => intro region _; exact ⟨([], region), rfl⟩
  | cons z rest ih =>
    intro region h
    obtain ⟨zone, hz⟩ := Option.isSome_iff_exists.mp (h z (List.mem_cons_self z rest))
    cases hreg : zone.getRegion db with
    | none =>
      obtain ⟨⟨zs, rg⟩, hout⟩ := ih region (fun x hx => h x (List.mem_cons_of_mem z hx))
      exact ⟨(z :: zs, rg), by simp [normalizeZoneIds, hz, hreg, hout]⟩
    | some reg =>
      obtain ⟨⟨zs, rg⟩, hout⟩ :=
        ih (if region.contains reg.id then region else region ++ [reg.id])
          (fun x hx => h x (List.mem_cons_of_mem z hx))
      exact ⟨(zone.id :: zs, rg), by simp only [normalizeZoneIds, hz, hreg, hout]⟩

theorem normalizeZoneIds_error_at_first (db : ModelDb) :
    ∀ (l region : List String) (u : String),
      l.find? (fun z => (fetchZoneByIdOrName db z).isNone) = some u →
      normalizeZoneIds db region l = Except.error (HttpErr.notFound u) := by
  intro l
  induction l with
  | nil => intro region u h; cases h
  | cons z rest ih =>
    intro region u h
    by_cases hz : ((fetchZoneByIdOrName db z).isNone : Bool) = true
    · simp only [List.find?_cons, hz] at h
      cases h
      have hnone : fetchZoneByIdOrName db z = none := Option.isNone_iff_eq_none.mp hz
      simp [normalizeZoneIds, hnone]
    · have hzf2 : (fetchZoneByIdOrName db z).isNone = false := by
        cases hfetch : fetchZoneByIdOrName db z
        · exact absurd (by simp [hfetch]) hz
        · simp [hfetch]
      simp only [List.find?_cons, hzf2] at h
      have hz2 : (fetchZoneByIdOrName db z).isSome = true := by
        cases hfetch : fetchZoneByIdOrName db z
        · simp [hfetch] at hz
        · simp
      obtain ⟨zone, hzone⟩ := Option.isSome_iff_exists.mp hz2
      cases hreg : zone.getRegion db with
      | none =>
        have herr := ih region u h
        simp [normalizeZoneIds, hzone, hreg, herr]
      | some reg =>
        have herr := ih (if region.contains reg.id then region
          else region ++ [reg.id]) u h
        simp only [normalizeZoneIds, hzone, hreg, herr]

theorem normalizeHostIds_ok_of_all_some (db : ModelDb) :
    ∀ (l zone region : List String),
      (∀ x ∈ l, (fetchHostByIdOrName db x).isSome = true) →
      ∃ out, normalizeHostIds db zone region l = Except.ok out := by
  intro l
  induction l with
  | nil => intro zone region _; exact ⟨([], zone, region), rfl⟩
  | cons x rest ih =>
    intro zone region h
    obtain ⟨host, hx⟩ := Option.isSome_iff_exists.mp (h x (List.mem_cons_self x rest))
    cases hzf : host.getZone db with
    | none =>
      obtain ⟨⟨hs, zs, rs⟩, hout⟩ :=
        ih zone region (fun y hy => h y (List.mem_cons_of_mem x hy))
      exact ⟨(x :: hs, zs, rs), by simp [normalizeHostIds, hx, hzf, hout]⟩
    | some z =>
      cases hrf : z.getRegion db with
      | none =>
        obtain ⟨⟨hs, zs, rs⟩, hout⟩ :=
          ih zone region (fun y hy => h y (List.mem_cons_of_mem x hy))
        exact ⟨(x :: hs, zs, rs), by simp [normalizeHostIds, hx, hzf, hrf, hout]⟩
      | some reg =>
        obtain ⟨⟨hs, zs, rs⟩, hout⟩ :=
          ih (if zone.contains z.id then zone else zone ++ [z.id])
            (if region.contains reg.id then region else region ++ [reg.id])
            (fun y hy => h y (List.mem_cons_of_mem x hy))
        exact ⟨(host.id :: hs, zs, rs), by simp only [normalizeHostIds, hx, hzf, hrf, hout]⟩

theorem normalizeHostIds_error_at_first (db : ModelDb) :
    ∀ (l zone region : List String) (u : String),
      l.find? (fun x => (fetchHostByIdOrName db x).isNone) = some u →
      normalizeHostIds db zone region l = Except.error (HttpErr.notFound u) := by
  intro l
  induction l with
  | nil => intro zone region u h; cases h
  | cons x rest ih =>
    intro zone region u h
    by_cases hx : ((fetchHostByIdOrName db x).isNone : Bool) = true
    · simp only [List.find?_cons, hx] at h
      cases h
      have hnone : fetchHostByIdOrName db x = none := Option.isNone_iff_eq_none.mp hx
      simp [normalizeHostIds, hnone]
    · have hxf2 : (fetchHostByIdOrName db x).isNone = false := by
        cases hfetch : fetchHostByIdOrName db x
        · exact absurd (by simp [hfetch]) hx
        · simp [hfetch]
      simp only [List.find?_cons, hxf2] at h
      have hx2 : (fetchHostByIdOrName db x).isSome = true := by
        cases hfetch : fetchHostByIdOrName db x
        · simp [hfetch] at hx
        · simp
      obtain ⟨host, hhost⟩ := Option.isSome_iff_exists.mp hx2
      cases hzf : host.getZone db with
      | none =>
        have herr := ih zone region u h
        simp [normalizeHostIds, hhost, hzf, herr]
      | some z =>
        cases hrf : z.getRegion db with
        | none =>
          have herr := ih zone region u h
          simp [normalizeHostIds, hhost, hzf, hrf, herr]
        | some reg =>
          have herr := ih (if zone.contains z.id then zone else zone ++ [z.id])
            (if region.contains reg.id then region else region ++ [reg.id]) u h
          simp only [normalizeHostIds, hhost, hzf, hrf, herr]

theorem normalizeZoneIds_region_mono (db : ModelDb) :
    ∀ (l region zs rg : List String),
      normalizeZoneIds db region l = Except.ok (zs, rg) →
      ∀ x ∈ region, x ∈ rg := by
  intro l
  induction l with
  | nil =>
    intro region zs rg h x hx
    cases h
    exact hx
  | cons z rest ih =>
    intro region zs rg h x hx
    cases hz : fetchZoneByIdOrName db z with
    | none =>
      simp only [normalizeZoneIds, hz] at h
      cases h
    | some zone =>
      cases hreg : zone.getRegion db with
      | none =>
        cases hrec : normalizeZoneIds db region rest with
        | error e =>
          simp only [normalizeZoneIds, hz, hreg, hrec] at h
          cases h
        | ok out =>
          obtain ⟨zs1, rg1⟩ := out
          simp only [normalizeZoneIds, hz, hreg, hrec, Except.ok.injEq,
            Prod.mk.injEq] at h
          obtain ⟨h1, h2⟩ := h
          subst h2
          exact ih region zs1 rg1 hrec x hx
      | some reg =>
        cases hrec : normalizeZoneIds db
            (if region.contains reg.id then region else region ++ [reg.id]) rest with
        | error e =>
          simp only [normalizeZoneIds, hz, hreg, hrec] at h
          cases h
        | ok out =>
          obtain ⟨zs1, rg1⟩ := out
          simp only [normalizeZoneIds, hz, hreg, hrec, Except.ok.injEq,
            Prod.mk.injEq] at h
          obtain ⟨h1, h2⟩ := h
          subst h2
          apply ih _ zs1 rg1 hrec
          by_cases hc : region.contains reg.id = true
          · rw [if_pos hc]
            exact hx
          · rw [if_neg hc]
            exact List.mem_append_left _ hx

theorem normalizeHostIds_mono (db : ModelDb) :
    ∀ (l zone region hs zs rs : List String),
      normalizeHostIds db zone region l = Except.ok (hs, zs, rs) →
      (∀ x ∈ zone, x ∈ zs) ∧ (∀ x ∈ region, x ∈ rs) := by
  intro l
  induction l with
  | nil =>
    intro zone region hs zs rs h
    cases h
    exact ⟨fun x hx => hx, fun x hx => hx⟩
  | cons x0 rest ih =>
    intro zone region hs zs rs h
    cases hx : fetchHostByIdOrName db x0 with
    | none =>
      simp only [normalizeHostIds, hx] at h
      cases h
    | some host =>
      cases hzf : host.getZone db with
      | none =>
        cases hrec : normalizeHostIds db zone region rest with
        | error e =>
          simp only [normalizeHostIds, hx, hzf, hrec] at h
          cases h
        | ok out =>
          obtain ⟨hs1, zs1, rs1⟩ := out
          simp only [normalizeHostIds, hx, hzf, hrec, Except.ok.injEq,
            Prod.mk.injEq] at h
          obtain ⟨h1, h2, h3⟩ := h
          subst h2
          subst h3
          exact ih zone region hs1 zs1 rs1 hrec
      | some z =>
        cases hrf : z.getRegion db with
        | none =>
          cases hrec : normalizeHostIds db zone region rest with
          | error e =>
            simp only [normalizeHostIds, hx, hzf, hrf, hrec] at h
            cases h
          | ok out =>
            obtain ⟨hs1, zs1, rs1⟩ := out
            simp only [normalizeHostIds, hx, hzf, hrf, hrec, Except.ok.injEq,
              Prod.mk.injEq] at h
            obtain ⟨h1, h2, h3⟩ := h
            subst h2
            subst h3
            exact ih zone region hs1 zs1 rs1 hrec
        | some reg =>
          cases hrec : normalizeHostIds db
              (if zone.contains z.id then zone else zone ++ [z.id])
              (if region.contains reg.id then region else region ++ [reg.id]) rest with
          | error e =>
            simp only [normalizeHostIds, hx, hzf, hrf, hrec] at h
            cases h
          | ok out =>
            obtain ⟨hs1, zs1, rs1⟩ := out
            simp only [normalizeHostIds, hx, hzf, hrf, hrec, Except.ok.injEq,
              Prod.mk.injEq] at h
            obtain ⟨h1, h2, h3⟩ := h
            subst h2
            subst h3
            have hih := ih _ _ hs1 zs1 rs1 hrec
            constructor
            · intro x hmem
              apply hih.1
              by_cases hc : zone.contains z.id = true
              · rw [if_pos hc]; exact hmem
              · rw [if_neg hc]; exact List.mem_append_left _ hmem
            · intro x hmem
              apply hih.2
              by_cases hc : region.contains reg.id = true
              · rw [if_pos hc]; exact hmem
              · rw [if_neg hc]; exact List.mem_append_left _ hmem

theorem mem_if_contains_append (l : List String) (a : String) :
    a ∈ (if l.contains a then l else l ++ [a]) := by
  by_cases hc : l.contains a = true
  · rw [if_pos hc]
    simpa using hc
  · rw [if_neg hc]
    exact List.mem_append_right _ (List.mem_singleton_self _)

theorem normalizeZoneIds_closure (db : ModelDb) (hwf : db.wf) :
    ∀ (l region zs rg : List String),
      normalizeZoneIds db region l = Except.ok (zs, rg) →
      ∀ z ∈ zs, ∃ zone ∈ db.zones, zone.id = z ∧ zone.cloudregionId ∈ rg := by
  intro l
  induction l with
  | nil =>
    intro region zs rg h z hz
    cases h
    cases hz
  | cons z0 rest ih =>
    intro region zs rg h z hz
    cases hz0 : fetchZoneByIdOrName db z0 with
    | none =>
      simp only [normalizeZoneIds, hz0] at h
      cases h
    | some zone =>
      have hzmem := fetchZone_mem db z0 zone hz0
      obtain ⟨reg, hregeq, hregid⟩ := getRegion_of_wf db hwf zone hzmem
      cases hrec : normalizeZoneIds db
          (if region.contains reg.id then region else region ++ [reg.id]) rest with
      | error e =>
        simp only [normalizeZoneIds, hz0, hregeq, hrec] at h
        cases h
      | ok out =>
        obtain ⟨zs1, rg1⟩ := out
        simp only [normalizeZoneIds, hz0, hregeq, hrec, Except.ok.injEq,
          Prod.mk.injEq] at h
        obtain ⟨h1, h2⟩ := h
        subst h2
        subst h1
        rcases List.mem_cons.mp hz with hzz | hzz
        · refine ⟨zone, hzmem, hzz.symm, ?_⟩
          have hmem2 : reg.id ∈
              (if region.contains reg.id then region else region ++ [reg.id]) :=
            mem_if_contains_append region reg.id
          have hfin := normalizeZoneIds_region_mono db rest _ zs1 rg1 hrec reg.id hmem2
          rw [← hregid]
          exact hfin
        · exact ih _ zs1 rg1 hrec z hzz

theorem normalizeHostIds_closure (db : ModelDb) (hwf : db.wf) :
    ∀ (l zone region hs zs rs : List String),
      normalizeHostIds db zone region l = Except.ok (hs, zs, rs) →
      (∀ z ∈ zs, z ∈ zone ∨
        ∃ zr ∈ db.zones, zr.id = z ∧ zr.cloudregionId ∈ rs) ∧
      (∀ x ∈ hs, ∃ host ∈ db.hosts, host.id = x ∧
        ∃ zr ∈ db.zones, zr.id = host.zoneId ∧ zr.id ∈ zs ∧ zr.cloudregionId ∈ rs) := by
  intro l
  induction l with
  | nil =>
    intro zone region hs zs rs h
    cases h
    exact ⟨fun z hz => Or.inl hz, fun x hx => absurd hx (List.not_mem_nil x)⟩
  | cons x0 rest ih =>
    intro zone region hs zs rs h
    cases hx : fetchHostByIdOrName db x0 with
    | none =>
      simp only [normalizeHostIds, hx] at h
      cases h
    | some host =>
      have hhmem := fetchHost_mem db x0 host hx
      obtain ⟨z1, hz1eq, hz1mem, hz1id⟩ := getZone_of_wf db hwf host hhmem
      obtain ⟨reg, hregeq, hregid⟩ := getRegion_of_wf db hwf z1 hz1mem
      cases hrec : normalizeHostIds db
          (if zone.contains z1.id then zone else zone ++ [z1.id])
          (if region.contains reg.id then region else region ++ [reg.id]) rest with
      | error e =>
        simp only [normalizeHostIds, hx, hz1eq, hregeq, hrec] at h
        cases h
      | ok out =>
        obtain ⟨hs1, zs1, rs1⟩ := out
        simp only [normalizeHostIds, hx, hz1eq, hregeq, hrec, Except.ok.injEq,
          Prod.mk.injEq] at h
        obtain ⟨h1, h2, h3⟩ := h
        subst h2
        subst h3
        have hih := ih _ _ hs1 zs1 rs1 hrec
        have hmono := normalizeHostIds_mono db rest _ _ hs1 zs1 rs1 hrec
        have hzid_in : z1.id ∈ zs1 :=
          hmono.1 z1.id (mem_if_contains_append zone z1.id)
        have hreg_in : reg.id ∈ rs1 :=
          hmono.2 reg.id (mem_if_contains_append region reg.id)
        constructor
        · intro z hz
          rcases hih.1 z hz with hcase | hcase
          · by_cases hc : zone.contains z1.id = true
            · rw [if_pos hc] at hcase
              exact Or.inl hcase
            · rw [if_neg hc] at hcase
              rcases List.mem_append.mp hcase with hin | hin
              · exact Or.inl hin
              · refine Or.inr ⟨z1, hz1mem, ?_, ?_⟩
                · exact (List.mem_singleton.mp hin).symm
                · rw [← hregid]
                  exact hreg_in
          · exact Or.inr hcase
        · intro x hxmem
          subst h1
          rcases List.mem_cons.mp hxmem with hxx | hxx
          · refine ⟨host, hhmem, hxx.symm, z1, hz1mem, hz1id, hzid_in, ?_⟩
            rw [← hregid]
            exact hreg_in
          · exact hih.2 x hxx

theorem length_filterMap_eq_length_filter {α β : Type} (f : α → Option β) (l : List α) :
    (l.filterMap f).length = (l.filter (fun a => (f a).isSome)).length := by
  induction l with
  | nil => rfl
  | cons a rest ih =>
    cases hf : f a <;> simp [List.filterMap_cons, hf, List.filter_cons, ih]

theorem length_filter_add_length_filter_not {α : Type} (p : α → Bool) (l : List α) :
    (l.filter p).length + (l.filter (fun a => !p a)).length = l.length := by
  induction l with
  | nil => rfl
  | cons a rest ih =>
    cases hp : p a <;> simp [List.filter_cons, hp] <;> omega

theorem filter_mem_length_comm (A B : List String) (hA : A.Nodup) (hB : B.Nodup) :
    (A.filter (fun x => x ∈ B)).length = (B.filter (fun x => x ∈ A)).length := by
  have h1 : (A.filter (fun x => x ∈ B)).Nodup := hA.filter _
  have h2 : (B.filter (fun x => x ∈ A)).Nodup := hB.filter _
  have hperm : List.Perm (A.filter (fun x => x ∈ B)) (B.filter (fun x => x ∈ A)) := by
    apply List.perm_of_nodup_nodup_toFinset_eq h1 h2
    ext x
    simp only [List.mem_toFinset, List.mem_filter, decide_eq_true_eq]
    exact And.comm
  exact hperm.length_eq

theorem nodup_filterMap_of_nodup_map {R : Type} (rkey : R → Option String)
    (remotes : List R) (h : (remotes.map rkey).Nodup) :
    (remotes.filterMap rkey).Nodup := by
  induction remotes with
  | nil => exact List.nodup_nil
  | cons r rest ih =>
    simp only [List.map_cons, List.nodup_cons] at h
    cases hr : rkey r with
    | none => simpa [List.filterMap_cons, hr] using ih h.2
    | some k =>
      simp only [List.filterMap_cons, hr]
      refine List.nodup_cons.mpr ⟨?_, ih h.2⟩
      intro hk
      obtain ⟨r2, hr2, hk2⟩ := List.mem_filterMap.mp hk
      exact h.1 (List.mem_map.mpr ⟨r2, hr2, hk2.trans hr.symm⟩)

theorem map_key_eq_map_some_filterMap {R : Type} (rkey : R → Option String)
    (remotes : List R) (h : ∀ r ∈ remotes, (rkey r).isSome = true) :
    remotes.map rkey = (remotes.filterMap rkey).map some := by
  induction remotes with
  | nil => rfl
  | cons r rest ih =>
    obtain ⟨k, hk⟩ := Option.isSome_iff_exists.mp (h r (List.mem_cons_self r rest))
    simp [List.filterMap_cons, hk, ih (fun x hx => h x (List.mem_cons_of_mem r hx))]

theorem matched_count_comm {L R : Type} (lkey : L → String) (rkey : R → Option String)
    (locals : List L) (remotes : List R)
    (hnl : (locals.map lkey).Nodup) (hnr : (remotes.map rkey).Nodup)
    (hall : ∀ r ∈ remotes, (rkey r).isSome = true) :
    (locals.filter (fun l => remotes.any (fun r => rkey r = some (lkey l)))).length =
    (remotes.filter (fun r => locals.any (fun l => some (lkey l) = rkey r))).length := by
  have hBnd : (remotes.filterMap rkey).Nodup := nodup_filterMap_of_nodup_map rkey remotes hnr
  have hstep1 :
      (locals.filter (fun l => remotes.any (fun r => rkey r = some (lkey l)))).length =
      ((locals.map lkey).filter (fun k => k ∈ remotes.filterMap rkey)).length := by
    have hpred : ∀ l ∈ locals,
        (remotes.any (fun r => rkey r = some (lkey l))) =
          decide (lkey l ∈ remotes.filterMap rkey) := by
      intro l _
      by_cases hm : lkey l ∈ remotes.filterMap rkey
      · obtain ⟨r, hr, hrk⟩ := List.mem_filterMap.mp hm
        simp only [hm, decide_True]
        exact List.any_eq_true.mpr ⟨r, hr, by simp [hrk]⟩
      · simp only [hm, decide_False]
        rw [List.any_eq_false]
        intro r hr
        simp only [decide_eq_true_eq]
        intro hcontra
        exact hm (List.mem_filterMap.mpr ⟨r, hr, hcontra⟩)
    rw [List.filter_congr hpred]
    rw [List.filter_map]
    rw [List.length_map]
    rfl
  have hstep3 :
      (remotes.filter (fun r => locals.any (fun l => some (lkey l) = rkey r))).length =
      ((remotes.filterMap rkey).filter
        (fun k => k ∈ locals.map lkey)).length := by
    have hpred : ∀ r ∈ remotes,
        (locals.any (fun l => some (lkey l) = rkey r)) =
          decide (rkey r ∈ (locals.map lkey).map some) := by
      intro r _
      by_cases hm : rkey r ∈ (locals.map lkey).map some
      · obtain ⟨k, hk, hks⟩ := List.mem_map.mp hm
        obtain ⟨l, hl, hlk⟩ := List.mem_map.mp hk
        simp only [hm, decide_True]
        exact List.any_eq_true.mpr ⟨l, hl, by simp [hlk, hks]⟩
      · simp only [hm, decide_False]
        rw [List.any_eq_false]
        intro l hl
        simp only [decide_eq_true_eq]
        intro hcontra
        exact hm (List.mem_map.mpr ⟨lkey l,
          List.mem_map.mpr ⟨l, hl, rfl⟩, hcontra⟩)
    rw [List.filter_congr hpred]
    have hfm : (remotes.filter
          (fun r => decide (rkey r ∈ (locals.map lkey).map some))).length =
        ((remotes.map rkey).filter
          (fun o => o ∈ (locals.map lkey).map some)).length := by
      rw [List.filter_map]
      rw [List.length_map]
      rfl
    rw [hfm]
    rw [map_key_eq_map_some_filterMap rkey remotes hall]
    rw [List.filter_map]
    rw [List.length_map]
    have hpred2 : ∀ k ∈ remotes.filterMap rkey,
        ((fun o => decide (o ∈ (locals.map lkey).map some)) ∘ some) k =
          decide (k ∈ locals.map lkey) := by
      intro k _
      simp only [Function.comp_apply, decide_eq_decide]
      constructor
      · intro hk
        obtain ⟨k2, hk2, hk2s⟩ := List.mem_map.mp hk
        cases hk2s
        exact hk2
      · intro hk
        exact List.mem_map.mpr ⟨k, hk, rfl⟩
    rw [List.filter_congr hpred2]
  rw [hstep1, hstep3]
  exact filter_mem_length_comm (locals.map lkey) (remotes.filterMap rkey) hnl hBnd

theorem bool_eq_of_iff {a b : Bool} (h : a = true ↔ b = true) : a = b := by
  cases a <;> cases b <;> simp_all

theorem processRemoved_spec (l : List LocalZone) :
    processRemoved l = (l.filter (fun z => z.usage.isEmpty),
      (l.filter (fun z => z.usage.isEmpty)).length,
      (l.filter (fun z => !z.usage.isEmpty)).length) := by
  induction l with
  | nil => rfl
  | cons z rest ih =>
    cases hz : z.usage.isEmpty <;>
      simp [processRemoved, ih, LocalZone.syncRemoveCloudZone,
        LocalZone.ValidateDeleteCondition, hz, List.filter_cons]

theorem processCommon_count (env : ZoneSyncEnv) (regionId : String)
    (l : List (LocalZone × RemoteZone)) :
    (processCommon env regionId l).2.2.1 + (processCommon env regionId l).2.2.2 =
      l.length := by
  induction l with
  | nil => rfl
  | cons pr rest ih =>
    obtain ⟨z, ext⟩ := pr
    rcases hres : processCommon env regionId rest with ⟨ls, rs, c, e⟩
    rw [hres] at ih
    simp only [] at ih
    cases hu : env.updateFails z ext <;>
      simp [processCommon, LocalZone.syncWithCloudZone, hu, hres] <;>
      omega

theorem processAdded_count (env : ZoneSyncEnv) (regionId : String)
    (l : List RemoteZone) :
    (processAdded env regionId l).2.2.1 + (processAdded env regionId l).2.2.2 =
      l.length := by
  induction l with
  | nil => rfl
  | cons ext rest ih =>
    rcases hres : processAdded env regionId rest with ⟨ls, rs, c, e⟩
    rw [hres] at ih
    simp only [] at ih
    cases ha : env.addFails ext <;>
      simp [processAdded, newFromCloudZone, ha, hres] <;>
      omega

/-! ### Claim theorems -/

/-- C10: ValidateDeleteCondition on a cloudprovider returns an InvalidStatus
error when the provider is enabled, returns an InvalidStatus error when the
provider's sync status is not idle, and falls through to the base-class
check exactly when the provider is disabled and idle. -/
theorem C10_provider_delete_requires_disabled_idle (p : Cloudprovider)
    (base : Except HttpErr Unit) :
    (p.enabled = true →
      p.ValidateDeleteCondition base = Except.error HttpErr.invalidStatus) ∧
    (p.enabled = false → p.syncStatus ≠ SyncStatus.idle →
      p.ValidateDeleteCondition base = Except.error HttpErr.invalidStatus) ∧
    (p.enabled = false → p.syncStatus = SyncStatus.idle →
      p.ValidateDeleteCondition base = base) := by
  unfold Cloudprovider.ValidateDeleteCondition
  refine ⟨fun h => by simp [h], fun h1 h2 => by simp [h1, h2], fun h1 h2 => by simp [h1, h2]⟩

/-- C10 witness: a disabled, idle provider falls through to the base check. -/
theorem C10_provider_delete_requires_disabled_idle_witness :
    ({ enabled := false, syncStatus := SyncStatus.idle, lastSyncEndAt := none,
       canSync := true, regions := [] } : Cloudprovider).ValidateDeleteCondition
      (Except.ok ()) = Except.ok () :=
  (C10_provider_delete_requires_disabled_idle
    { enabled := false, syncStatus := SyncStatus.idle, lastSyncEndAt := none,
      canSync := true, regions := [] } (Except.ok ())).2.2 rfl rfl

/-- C8: cancelStartingSync on a cloudprovider reverts the provider to idle
and cancels every cloudprovider-region child exactly when the provider's
current sync status is queuing; in any other status the call leaves the
provider (and hence its children) untouched. -/
theorem C8_cancel_only_effective_in_queuing (p : Cloudprovider) :
    (p.syncStatus = SyncStatus.queuing →
      p.cancelStartingSync =
        { p with regions := p.regions.map Cloudproviderregion.cancelStartingSync,
                 syncStatus := SyncStatus.idle }) ∧
    (p.syncStatus ≠ SyncStatus.queuing → p.cancelStartingSync = p) := by
  unfold Cloudprovider.cancelStartingSync
  constructor
  · intro h
    simp [h]
  · intro h
    simp [h]

/-- C8 witness: a queuing provider with one queuing child is cancelled back
to idle, and a syncing provider is left unchanged. -/
theorem C8_cancel_only_effective_in_queuing_witness :
    ({ enabled := true, syncStatus := SyncStatus.queuing, lastSyncEndAt := none,
       canSync := false,
       regions := [{ enabled := true, syncStatus := SyncStatus.queuing }] } :
        Cloudprovider).cancelStartingSync =
      { enabled := true, syncStatus := SyncStatus.idle, lastSyncEndAt := none,
        canSync := false,
        regions := [{ enabled := true, syncStatus := SyncStatus.idle }] } ∧
    ({ enabled := true, syncStatus := SyncStatus.syncing, lastSyncEndAt := none,
       canSync := false, regions := [] } : Cloudprovider).cancelStartingSync =
      { enabled := true, syncStatus := SyncStatus.syncing, lastSyncEndAt := none,
        canSync := false, regions := [] } := by
  constructor
  · have h := (C8_cancel_only_effective_in_queuing
      { enabled := true, syncStatus := SyncStatus.queuing, lastSyncEndAt := none,
        canSync := false,
        regions := [{ enabled := true, syncStatus := SyncStatus.queuing }] }).1 rfl
    rw [h]
    decide
  · exact (C8_cancel_only_effective_in_queuing
      { enabled := true, syncStatus := SyncStatus.syncing, lastSyncEndAt := none,
        canSync := false, regions := [] }).2 (by decide)

/-- C4: when Normalize succeeds on a referentially intact store, the scope is
closed upward: every zone entry is the id of a stored zone whose owning
region id is in the region set, and every host entry is the id of a stored
host whose owning zone id is in the zone set and whose owning region id is
in the region set. -/
theorem C4_normalize_referential_closure (db : ModelDb) (sr sr2 : SyncRangeInput)
    (hwf : db.wf) (h : sr.Normalize db = Except.ok sr2) :
    (∀ z ∈ sr2.zone, ∃ zone ∈ db.zones,
      zone.id = z ∧ zone.cloudregionId ∈ sr2.region) ∧
    (∀ x ∈ sr2.host, ∃ host ∈ db.hosts, host.id = x ∧
      ∃ zr ∈ db.zones, zr.id = host.zoneId ∧ zr.id ∈ sr2.zone ∧
        zr.cloudregionId ∈ sr2.region) := by
  cases h1 : normalizeRegionIds db sr.region with
  | error e =>
    simp only [SyncRangeInput.Normalize, h1] at h
    cases h
  | ok region1 =>
    cases h2 : normalizeZoneIds db region1 sr.zone with
    | error e =>
      simp only [SyncRangeInput.Normalize, h1, h2] at h
      cases h
    | ok out2 =>
      obtain ⟨zone1, region2⟩ := out2
      cases h3 : normalizeHostIds db zone1 region2 sr.host with
      | error e =>
        simp only [SyncRangeInput.Normalize, h1, h2, h3] at h
        cases h
      | ok out3 =>
        obtain ⟨host1, zone2, region3⟩ := out3
        simp only [SyncRangeInput.Normalize, h1, h2, h3, Except.ok.injEq] at h
        have hzcl := normalizeZoneIds_closure db hwf sr.zone region1 zone1 region2 h2
        have hhcl := normalizeHostIds_closure db hwf sr.host zone1 region2
          host1 zone2 region3 h3
        have hhmono := normalizeHostIds_mono db sr.host zone1 region2
          host1 zone2 region3 h3
        subst h
        constructor
        · intro z hz
          rcases hhcl.1 z hz with hcase | hcase
          · obtain ⟨zone, hzm, hzid, hzreg⟩ := hzcl z hcase
            exact ⟨zone, hzm, hzid, hhmono.2 zone.cloudregionId hzreg⟩
          · exact hcase
        · exact hhcl.2

/-- C4 witness: the scope zone z1, host h1 over a store where h1 lives in z2
and z1, z2 live in r1 normalizes with r1 pulled into the region set and z2
pulled into the zone set. -/
theorem C4_normalize_referential_closure_witness :
    (∀ z ∈ ({ region := ["r1"], zone := ["z1", "z2"], host := ["h1"], resources := [], fullSync := false, deepSync := false, force := false } : SyncRangeInput).zone, ∃ zone ∈ ({ regions := [{ id := "r1", name := "region one" }], zones := [{ id := "z1", name := "zone one", cloudregionId := "r1" }, { id := "z2", name := "zone two", cloudregionId := "r1" }], hosts := [{ id := "h1", name := "host one", zoneId := "z2" }] } : ModelDb).zones, zone.id = z ∧ zone.cloudregionId ∈ ({ region := ["r1"], zone := ["z1", "z2"], host := ["h1"], resources := [], fullSync := false, deepSync := false, force := false } : SyncRangeInput).region) ∧
    (∀ x ∈ ({ region := ["r1"], zone := ["z1", "z2"], host := ["h1"], resources := [], fullSync := false, deepSync := false, force := false } : SyncRangeInput).host, ∃ host ∈ ({ regions := [{ id := "r1", name := "region one" }], zones := [{ id := "z1", name := "zone one", cloudregionId := "r1" }, { id := "z2", name := "zone two", cloudregionId := "r1" }], hosts := [{ id := "h1", name := "host one", zoneId := "z2" }] } : ModelDb).hosts, host.id = x ∧ ∃ zr ∈ ({ regions := [{ id := "r1", name := "region one" }], zones := [{ id := "z1", name := "zone one", cloudregionId := "r1" }, { id := "z2", name := "zone two", cloudregionId := "r1" }], hosts := [{ id := "h1", name := "host one", zoneId := "z2" }] } : ModelDb).zones, zr.id = host.zoneId ∧ zr.id ∈ ({ region := ["r1"], zone := ["z1", "z2"], host := ["h1"], resources := [], fullSync := false, deepSync := false, force := false } : SyncRangeInput).zone ∧ zr.cloudregionId ∈ ({ region := ["r1"], zone := ["z1", "z2"], host := ["h1"], resources := [], fullSync := false, deepSync := false, force := false } : SyncRangeInput).region) :=
  C4_normalize_referential_closure
    { regions := [{ id := "r1", name := "region one" }],
      zones := [{ id := "z1", name := "zone one", cloudregionId := "r1" },
                { id := "z2", name := "zone two", cloudregionId := "r1" }],
      hosts := [{ id := "h1", name := "host one", zoneId := "z2" }] }
    { region := ["r1"], zone := ["z1"], host := ["h1"], resources := [],
      fullSync := false, deepSync := false, force := false }
    { region := ["r1"], zone := ["z1", "z2"], host := ["h1"], resources := [],
      fullSync := false, deepSync := false, force := false }
    (by decide) rfl

/-- C5: Normalize is all-or-nothing over identifier resolution: it returns a
NotFound error carrying the first identifier, in region-zone-host processing
order, that resolves to no stored record, and succeeds exactly when every
listed identifier resolves. -/
theorem C5_normalize_all_or_nothing (db : ModelDb) (sr : SyncRangeInput) :
    (∀ u, firstUnresolved db sr = some u →
      sr.Normalize db = Except.error (HttpErr.notFound u)) ∧
    (firstUnresolved db sr = none → ∃ sr2, sr.Normalize db = Except.ok sr2) := by
  constructor
  · intro u hu
    unfold firstUnresolved at hu
    cases h1 : sr.region.find? (fun r => (fetchRegionByIdOrName db r).isNone) with
    | some r =>
      rw [h1] at hu
      cases hu
      have herr := normalizeRegionIds_error_at_first db sr.region u h1
      simp only [SyncRangeInput.Normalize, herr]
    | none =>
      rw [h1] at hu
      have hallr : ∀ r ∈ sr.region, (fetchRegionByIdOrName db r).isSome = true := by
        intro r hr
        have hnp := List.find?_eq_none.mp h1 r hr
        cases hf : fetchRegionByIdOrName db r
        · exact absurd (by simp [hf]) hnp
        · simp
      obtain ⟨region1, hr1⟩ := normalizeRegionIds_ok_of_all_some db sr.region hallr
      cases h2 : sr.zone.find? (fun z => (fetchZoneByIdOrName db z).isNone) with
      | some z =>
        rw [h2] at hu
        cases hu
        have herr := normalizeZoneIds_error_at_first db sr.zone region1 u h2
        simp only [SyncRangeInput.Normalize, hr1, herr]
      | none =>
        rw [h2] at hu
        have hallz : ∀ z ∈ sr.zone, (fetchZoneByIdOrName db z).isSome = true := by
          intro z hz
          have hnp := List.find?_eq_none.mp h2 z hz
          cases hf : fetchZoneByIdOrName db z
          · exact absurd (by simp [hf]) hnp
          · simp
        obtain ⟨⟨zone1, region2⟩, hz1⟩ :=
          normalizeZoneIds_ok_of_all_some db sr.zone region1 hallz
        have herr := normalizeHostIds_error_at_first db sr.host zone1 region2 u hu
        simp only [SyncRangeInput.Normalize, hr1, hz1, herr]
  · intro hnone
    unfold firstUnresolved at hnone
    cases h1 : sr.region.find? (fun r => (fetchRegionByIdOrName db r).isNone) with
    | some r =>
      rw [h1] at hnone
      cases hnone
    | none =>
      rw [h1] at hnone
      have hallr : ∀ r ∈ sr.region, (fetchRegionByIdOrName db r).isSome = true := by
        intro r hr
        have hnp := List.find?_eq_none.mp h1 r hr
        cases hf : fetchRegionByIdOrName db r
        · exact absurd (by simp [hf]) hnp
        · simp
      obtain ⟨region1, hr1⟩ := normalizeRegionIds_ok_of_all_some db sr.region hallr
      cases h2 : sr.zone.find? (fun z => (fetchZoneByIdOrName db z).isNone) with
      | some z =>
        rw [h2] at hnone
        cases hnone
      | none =>
        rw [h2] at hnone
        have hallz : ∀ z ∈ sr.zone, (fetchZoneByIdOrName db z).isSome = true := by
          intro z hz
          have hnp := List.find?_eq_none.mp h2 z hz
          cases hf : fetchZoneByIdOrName db z
          · exact absurd (by simp [hf]) hnp
          · simp
        obtain ⟨⟨zone1, region2⟩, hz1⟩ :=
          normalizeZoneIds_ok_of_all_some db sr.zone region1 hallz
        have hallh : ∀ x ∈ sr.host, (fetchHostByIdOrName db x).isSome = true := by
          intro x hx
          have hnp := List.find?_eq_none.mp hnone x hx
          cases hf : fetchHostByIdOrName db x
          · exact absurd (by simp [hf]) hnp
          · simp
        obtain ⟨⟨host1, zone2, region3⟩, hh1⟩ :=
          normalizeHostIds_ok_of_all_some db sr.host zone1 region2 hallh
        exact ⟨{ sr with region := region3, zone := zone2, host := host1 },
          by simp only [SyncRangeInput.Normalize, hr1, hz1, hh1]⟩

/-- C5 witness: an unresolvable region identifier aborts with NotFound naming
it, and a fully resolvable scope normalizes successfully. -/
theorem C5_normalize_all_or_nothing_witness :
    ({ region := ["rX"], zone := ["z1"], host := [], resources := [], fullSync := false, deepSync := false, force := false } : SyncRangeInput).Normalize { regions := [{ id := "r1", name := "region one" }], zones := [{ id := "z1", name := "zone one", cloudregionId := "r1" }], hosts := [] } = Except.error (HttpErr.notFound "rX") ∧
    (∃ sr2, ({ region := [], zone := ["z1"], host := [], resources := [], fullSync := false, deepSync := false, force := false } : SyncRangeInput).Normalize { regions := [{ id := "r1", name := "region one" }], zones := [{ id := "z1", name := "zone one", cloudregionId := "r1" }], hosts := [] } = Except.ok sr2) :=
  ⟨(C5_normalize_all_or_nothing
      { regions := [{ id := "r1", name := "region one" }],
        zones := [{ id := "z1", name := "zone one", cloudregionId := "r1" }],
        hosts := [] }
      { region := ["rX"], zone := ["z1"], host := [], resources := [],
        fullSync := false, deepSync := false, force := false }).1 "rX" (by decide),
   (C5_normalize_all_or_nothing
      { regions := [{ id := "r1", name := "region one" }],
        zones := [{ id := "z1", name := "zone one", cloudregionId := "r1" }],
        hosts := [] }
      { region := [], zone := ["z1"], host := [], resources := [],
        fullSync := false, deepSync := false, force := false }).2 (by decide)⟩

/-- C6: in a SyncZones pass, each removed record is deleted only after its
deletion precondition (no dependent hosts, wires, networks or storages)
passes; a failed precondition is recorded as a delete-error and the batch
continues; per-item update and add errors likewise only bump error counters;
and a local-fetch or comparator failure aborts the pass with the error
recorded and nothing deleted. -/
theorem C6_sync_zones_error_handling (env : ZoneSyncEnv) (regionId : String)
    (zones : List RemoteZone) :
    (∀ e, env.fetchZones = Except.error e →
      (SyncZones env regionId zones).result.fatal = true ∧
      (SyncZones env regionId zones).deleted = [] ∧
      (SyncZones env regionId zones).localZones = []) ∧
    (∀ dbZones err, env.fetchZones = Except.ok dbZones →
      CompareSets LocalZone.externalId RemoteZone.globalId dbZones zones =
        Except.error err →
      (SyncZones env regionId zones).result.fatal = true ∧
      (SyncZones env regionId zones).deleted = [] ∧
      (SyncZones env regionId zones).localZones = []) ∧
    (∀ dbZones removed pairs added, env.fetchZones = Except.ok dbZones →
      CompareSets LocalZone.externalId RemoteZone.globalId dbZones zones =
        Except.ok (removed, pairs, added) →
      (SyncZones env regionId zones).deleted =
        removed.filter (fun z => z.usage.isEmpty) ∧
      (SyncZones env regionId zones).result.delCnt =
        (removed.filter (fun z => z.usage.isEmpty)).length ∧
      (SyncZones env regionId zones).result.delErrCnt =
        (removed.filter (fun z => !z.usage.isEmpty)).length ∧
      (SyncZones env regionId zones).result.updateCnt +
        (SyncZones env regionId zones).result.updateErrCnt = pairs.length ∧
      (SyncZones env regionId zones).result.addCnt +
        (SyncZones env regionId zones).result.addErrCnt = added.length ∧
      (SyncZones env regionId zones).result.fatal = false) := by
  refine ⟨?_, ?_, ?_⟩
  · intro e he
    simp [SyncZones, he]
  · intro dbZones err h1 h2
    simp [SyncZones, h1, h2]
  · intro dbZones removed pairs added h1 h2
    have hcn := processCommon_count env regionId pairs
    have han := processAdded_count env regionId added
    rcases hcval : processCommon env regionId pairs with ⟨uls, urs, updCnt, updErrCnt⟩
    rcases haval : processAdded env regionId added with ⟨als, ars, addCnt, addErrCnt⟩
    rw [hcval] at hcn
    rw [haval] at han
    simp only [] at hcn han
    simp only [SyncZones, h1, h2, processRemoved_spec, hcval, haval]
    exact ⟨trivial, trivial, trivial, hcn, han, trivial⟩

/-- C6 witness: with two removed-partition zones, one still hosting
resources and one empty, only the empty one is deleted and one delete-error
is recorded while the pass completes. -/
theorem C6_sync_zones_error_handling_witness :
    (SyncZones { fetchZones := Except.ok [{ name := "za", status := "ready", externalId := "z1", isEmulated := false, cloudregionId := "r1", usage := { hosts := 1, wires := 0, networks := 0, storages := 0 } }, { name := "zb", status := "ready", externalId := "z2", isEmulated := false, cloudregionId := "r1", usage := { hosts := 0, wires := 0, networks := 0, storages := 0 } }], updateFails := fun _ _ => false, addFails := fun _ => false } "r1" []).deleted = [{ name := "za", status := "ready", externalId := "z1", isEmulated := false, cloudregionId := "r1", usage := { hosts := 1, wires := 0, networks := 0, storages := 0 } }, { name := "zb", status := "ready", externalId := "z2", isEmulated := false, cloudregionId := "r1", usage := { hosts := 0, wires := 0, networks := 0, storages := 0 } }].filter (fun z => z.usage.isEmpty) :=
  ((C6_sync_zones_error_handling { fetchZones := Except.ok [{ name := "za", status := "ready", externalId := "z1", isEmulated := false, cloudregionId := "r1", usage := { hosts := 1, wires := 0, networks := 0, storages := 0 } }, { name := "zb", status := "ready", externalId := "z2", isEmulated := false, cloudregionId := "r1", usage := { hosts := 0, wires := 0, networks := 0, storages := 0 } }], updateFails := fun _ _ => false, addFails := fun _ => false } "r1" []).2.2 [{ name := "za", status := "ready", externalId := "z1", isEmulated := false, cloudregionId := "r1", usage := { hosts := 1, wires := 0, networks := 0, storages := 0 } }, { name := "zb", status := "ready", externalId := "z2", isEmulated := false, cloudregionId := "r1", usage := { hosts := 0, wires := 0, networks := 0, storages := 0 } }] [{ name := "za", status := "ready", externalId := "z1", isEmulated := false, cloudregionId := "r1", usage := { hosts := 1, wires := 0, networks := 0, storages := 0 } }, { name := "zb", status := "ready", externalId := "z2", isEmulated := false, cloudregionId := "r1", usage := { hosts := 0, wires := 0, networks := 0, storages := 0 } }] [] [] rfl rfl).1

/-- C7: CompareSets (as used by the zone synchronizer, over key-distinct
collections) is a total partition by exact key equality: every local is in
exactly one of removed / matched-locals, every remote is in exactly one of
added / matched-remotes, the partition lengths add up to the input lengths,
and matched pairs agree on their keys index by index. -/
theorem C7_compare_sets_total_partition {L R : Type}
    (lkey : L → String) (rkey : R → Option String)
    (locals : List L) (remotes : List R)
    (removed : List L) (pairs : List (L × R)) (added : List R)
    (hnl : (locals.map lkey).Nodup) (hnr : (remotes.map rkey).Nodup)
    (h : CompareSets lkey rkey locals remotes = Except.ok (removed, pairs, added)) :
    (∀ l ∈ locals, (l ∈ removed ∧ l ∉ pairs.map Prod.fst) ∨
      (l ∉ removed ∧ l ∈ pairs.map Prod.fst)) ∧
    (∀ r ∈ remotes, (r ∈ added ∧ r ∉ pairs.map Prod.snd) ∨
      (r ∉ added ∧ r ∈ pairs.map Prod.snd)) ∧
    removed.length + pairs.length = locals.length ∧
    added.length + pairs.length = remotes.length ∧
    (∀ i, ∀ hi : i < pairs.length,
      rkey (pairs[i].2) = some (lkey (pairs[i].1))) := by
  unfold CompareSets at h
  by_cases hg : (remotes.any (fun r => (rkey r).isNone)) = true
  · rw [if_pos hg] at h
    cases h
  · rw [if_neg hg] at h
    have hg2 : (remotes.any (fun r => (rkey r).isNone)) = false := by
      cases hb : (remotes.any (fun r => (rkey r).isNone))
      · rfl
      · exact absurd hb hg
    have hall : ∀ r ∈ remotes, (rkey r).isSome = true := by
      intro r hr
      have hnone := List.any_eq_false.mp hg2 r hr
      cases hf : rkey r
      · exact absurd (by simp [hf]) hnone
      · simp
    simp only [Except.ok.injEq, Prod.mk.injEq] at h
    obtain ⟨h1, h2, h3⟩ := h
    subst h1
    subst h2
    subst h3
    have hpl : (locals.filterMap (fun l =>
        (remotes.find? (fun r => rkey r = some (lkey l))).map (fun r => (l, r)))).length =
        (locals.filter
          (fun l => remotes.any (fun r => rkey r = some (lkey l)))).length := by
      rw [length_filterMap_eq_length_filter]
      congr 1
      apply List.filter_congr
      intro l _
      rw [Option.isSome_map']
      apply bool_eq_of_iff
      rw [List.find?_isSome, List.any_eq_true]
    refine ⟨?_, ?_, ?_, ?_, ?_⟩
    · intro l hl
      by_cases hP : (remotes.any (fun r => rkey r = some (lkey l))) = true
      · right
        constructor
        · intro hmem
          rw [List.mem_filter] at hmem
          simp [hP] at hmem
        · obtain ⟨r, hr, hrk⟩ := List.any_eq_true.mp hP
          have hrk2 : rkey r = some (lkey l) := by simpa using hrk
          have hsome : (remotes.find? (fun r => rkey r = some (lkey l))).isSome = true :=
            List.find?_isSome.mpr ⟨r, hr, by simp [hrk2]⟩
          obtain ⟨r0, hr0⟩ := Option.isSome_iff_exists.mp hsome
          exact List.mem_map.mpr ⟨(l, r0),
            List.mem_filterMap.mpr ⟨l, hl, by rw [hr0]; rfl⟩, rfl⟩
      · left
        have hP2 : (remotes.any (fun r => rkey r = some (lkey l))) = false := by
          cases hb : (remotes.any (fun r => rkey r = some (lkey l)))
          · rfl
          · exact absurd hb hP
        constructor
        · rw [List.mem_filter]
          exact ⟨hl, by simp [hP2]⟩
        · intro hmem
          obtain ⟨⟨a, r⟩, hpr, hfst⟩ := List.mem_map.mp hmem
          obtain ⟨l0, hl0, hf⟩ := List.mem_filterMap.mp hpr
          obtain ⟨r0, hr0, heq⟩ := Option.map_eq_some'.mp hf
          apply hP
          have hleq : l0 = l := by
            have hfst2 : (l0, r0).1 = l := by rw [heq]; exact hfst
            simpa using hfst2
          rw [← hleq]
          have hp0 := List.find?_some hr0
          exact List.any_eq_true.mpr
            ⟨r0, List.mem_of_find?_eq_some hr0, hp0⟩
    · intro r hr
      by_cases hQ : (locals.any (fun l => some (lkey l) = rkey r)) = true
      · right
        constructor
        · intro hmem
          rw [List.mem_filter] at hmem
          simp [hQ] at hmem
        · obtain ⟨l0, hl0, hk⟩ := List.any_eq_true.mp hQ
          have hk2 : some (lkey l0) = rkey r := by simpa using hk
          have hsome : (remotes.find? (fun r2 => rkey r2 = some (lkey l0))).isSome = true :=
            List.find?_isSome.mpr ⟨r, hr, by simp [hk2.symm]⟩
          obtain ⟨r0, hr0⟩ := Option.isSome_iff_exists.mp hsome
          have hr0mem := List.mem_of_find?_eq_some hr0
          have hr0key : rkey r0 = some (lkey l0) := by
            simpa using List.find?_some hr0
          have hre : r0 = r :=
            List.inj_on_of_nodup_map hnr hr0mem hr (hr0key.trans hk2)
          subst hre
          exact List.mem_map.mpr ⟨(l0, r0),
            List.mem_filterMap.mpr ⟨l0, hl0, by rw [hr0]; rfl⟩, rfl⟩
      · left
        have hQ2 : (locals.any (fun l => some (lkey l) = rkey r)) = false := by
          cases hb : (locals.any (fun l => some (lkey l) = rkey r))
          · rfl
          · exact absurd hb hQ
        constructor
        · rw [List.mem_filter]
          exact ⟨hr, by simp [hQ2]⟩
        · intro hmem
          obtain ⟨⟨a, r2⟩, hpr, hsnd⟩ := List.mem_map.mp hmem
          obtain ⟨l0, hl0, hf⟩ := List.mem_filterMap.mp hpr
          obtain ⟨r0, hr0, heq⟩ := Option.map_eq_some'.mp hf
          apply hQ
          have hr0key : rkey r0 = some (lkey l0) := by
            simpa using List.find?_some hr0
          have hrr : r0 = r := by
            have hsnd2 : (l0, r0).2 = r := by rw [heq]; exact hsnd
            simpa using hsnd2
          rw [← hrr]
          exact List.any_eq_true.mpr ⟨l0, hl0, by simp [hr0key]⟩
    · rw [hpl, Nat.add_comm]
      exact length_filter_add_length_filter_not _ locals
    · rw [hpl, matched_count_comm lkey rkey locals remotes hnl hnr hall, Nat.add_comm]
      exact length_filter_add_length_filter_not _ remotes
    · intro i hi
      have hmem : (locals.filterMap (fun l =>
          (remotes.find? (fun r => rkey r = some (lkey l))).map (fun r => (l, r))))[i] ∈
          locals.filterMap (fun l =>
          (remotes.find? (fun r => rkey r = some (lkey l))).map (fun r => (l, r))) :=
        List.getElem_mem hi
      obtain ⟨l0, hl0, hf⟩ := List.mem_filterMap.mp hmem
      obtain ⟨r0, hr0, heq⟩ := Option.map_eq_some'.mp hf
      rw [← heq]
      simpa using List.find?_some hr0

/-- C7 witness: a one-element local set and a one-element remote set with the
same key partition into no removed, one aligned pair and no added. -/
theorem C7_compare_sets_total_partition_witness :
    (∀ l ∈ (["a"] : List String), (l ∈ ([] : List String) ∧ l ∉ ([("a", "a")] : List (String × String)).map Prod.fst) ∨ (l ∉ ([] : List String) ∧ l ∈ ([("a", "a")] : List (String × String)).map Prod.fst)) ∧
    (∀ r ∈ (["a"] : List String), (r ∈ ([] : List String) ∧ r ∉ ([("a", "a")] : List (String × String)).map Prod.snd) ∨ (r ∉ ([] : List String) ∧ r ∈ ([("a", "a")] : List (String × String)).map Prod.snd)) ∧
    ([] : List String).length + ([("a", "a")] : List (String × String)).length = (["a"] : List String).length ∧
    ([] : List String).length + ([("a", "a")] : List (String × String)).length = (["a"] : List String).length ∧
    (∀ i, ∀ hi : i < ([("a", "a")] : List (String × String)).length, (fun s : String => some s) (([("a", "a")] : List (String × String))[i].2) = some ((fun s : String => s) (([("a", "a")] : List (String × String))[i].1))) :=
  C7_compare_sets_total_partition (fun s => s) (fun s => some s)
    ["a"] ["a"] [] [("a", "a")] [] (by decide) (by decide) rfl

/-- C1: an account-level sync pass that fails at any stage (an error from the
OnInit task body, which fires OnCloudaccountSyncReadyFailed, or a failed
provider sub-task, which fires OnCloudaccountSyncCompleteFailed) ends with
the owning cloudaccount's sync status idle, for any starting account status
and a pass running in isolation (its providers idle at the start). -/
theorem C1_failed_account_pass_ends_idle (now : Nat) (env : AccountTaskEnv)
    (w : AccountSyncWorld)
    (hidle : ∀ p ∈ w.providers, p.syncStatus = SyncStatus.idle)
    (_hfail : (runCloudAccountSyncInfoTask now env w).2 = true) :
    (runCloudAccountSyncInfoTask now env w).1.account.syncStatus = SyncStatus.idle := by
  clear _hfail
  unfold runCloudAccountSyncInfoTask
  have hmap : ∀ s ∈ w.providers.map (fun p => p.syncStatus), s = SyncStatus.idle := by
    intro s hs
    obtain ⟨p, hp, rfl⟩ := List.mem_map.mp hs
    exact hidle p hp
  by_cases hb : env.bodyErr = true
  · simp only [hb, if_true]
    exact account_mark_end_all_idle _ _ _ hmap
  · simp only [hb, if_false]
    split
    · exact account_mark_end_all_idle _ _ _ hmap
    · split
      · exact account_mark_end_all_idle _ _ _ hmap
      · split
        · exact account_mark_end_all_idle _ _ _ hmap
        · apply account_mark_end_all_idle
          intro s hs
          obtain ⟨p, hp, rfl⟩ := List.mem_map.mp hs
          obtain ⟨q, hq, rfl⟩ := List.mem_map.mp hp
          by_cases he : q.enabled = true
          · simp [he, runProviderSubtask]
          · simp [he, hidle q hq]

/-- C1 witness: a body failure on an account in syncing state with one idle
provider ends with the account idle. -/
theorem C1_failed_account_pass_ends_idle_witness :
    (runCloudAccountSyncInfoTask 3
      { bodyErr := true, syncRange := none, resourceSyncErr := false,
        subtaskFails := fun _ => false }
      { account := { enabled := true, syncStatus := SyncStatus.syncing,
                     lastSyncEndAt := none },
        providers := [{ enabled := true, syncStatus := SyncStatus.idle,
                        lastSyncEndAt := none, canSync := true,
                        regions := [] }] }).1.account.syncStatus = SyncStatus.idle :=
  C1_failed_account_pass_ends_idle 3
    { bodyErr := true, syncRange := none, resourceSyncErr := false,
      subtaskFails := fun _ => false }
    { account := { enabled := true, syncStatus := SyncStatus.syncing,
                   lastSyncEndAt := none },
      providers := [{ enabled := true, syncStatus := SyncStatus.idle,
                      lastSyncEndAt := none, canSync := true,
                      regions := [] }] }
    (by decide) rfl

/-- C2: on an enabled cloudprovider under an enabled cloudaccount, PerformSync
refuses with InvalidStatus when CanSync does not hold and no force flag is
given, and starts the sync task regardless of CanSync when force is set. -/
theorem C2_perform_sync_admission_control (p : Cloudprovider) (a : Cloudaccount)
    (input : SyncRangeInput) (hp : p.enabled = true) (ha : a.enabled = true)
    (hcs : p.canSync = false) :
    (input.force = false →
      p.PerformSync a input = Except.error HttpErr.invalidStatus) ∧
    (input.force = true → ∃ sr, p.PerformSync a input = Except.ok sr) := by
  constructor
  · intro hf
    by_cases hC : (input.fullSync || decide (input.region.length > 0) ||
        decide (input.zone.length > 0) || decide (input.host.length > 0) ||
        decide (input.resources.length > 0)) = true
    · simp [Cloudprovider.PerformSync, hp, ha, hcs, hf, hC]
    · simp [Cloudprovider.PerformSync, hp, ha, hcs, hf, hC]
  · intro hf
    by_cases hC : (input.fullSync || decide (input.region.length > 0) ||
        decide (input.zone.length > 0) || decide (input.host.length > 0) ||
        decide (input.resources.length > 0)) = true
    · exact ⟨{ input with deepSync := true },
        by simp [Cloudprovider.PerformSync, hp, ha, hcs, hf, hC]⟩
    · exact ⟨input, by simp [Cloudprovider.PerformSync, hp, ha, hcs, hf, hC]⟩

/-- C2 witness: a rate-limited (CanSync = false) enabled provider refuses a
non-forced request and accepts a forced one. -/
theorem C2_perform_sync_admission_control_witness :
    (({ enabled := true, syncStatus := SyncStatus.syncing, lastSyncEndAt := none,
        canSync := false, regions := [] } : Cloudprovider).PerformSync
      { enabled := true, syncStatus := SyncStatus.idle, lastSyncEndAt := none }
      { region := [], zone := [], host := [], resources := [], fullSync := false,
        deepSync := false, force := false } = Except.error HttpErr.invalidStatus) ∧
    (∃ sr, ({ enabled := true, syncStatus := SyncStatus.syncing, lastSyncEndAt := none, canSync := false, regions := [] } : Cloudprovider).PerformSync { enabled := true, syncStatus := SyncStatus.idle, lastSyncEndAt := none } { region := [], zone := [], host := [], resources := [], fullSync := false, deepSync := false, force := true } = Except.ok sr) :=
  ⟨(C2_perform_sync_admission_control
      { enabled := true, syncStatus := SyncStatus.syncing, lastSyncEndAt := none,
        canSync := false, regions := [] }
      { enabled := true, syncStatus := SyncStatus.idle, lastSyncEndAt := none }
      { region := [], zone := [], host := [], resources := [], fullSync := false,
        deepSync := false, force := false } rfl rfl rfl).1 rfl,
   (C2_perform_sync_admission_control
      { enabled := true, syncStatus := SyncStatus.syncing, lastSyncEndAt := none,
        canSync := false, regions := [] }
      { enabled := true, syncStatus := SyncStatus.idle, lastSyncEndAt := none }
      { region := [], zone := [], host := [], resources := [], fullSync := false,
        deepSync := false, force := true } rfl rfl rfl).2 rfl⟩

/-- C9: whenever PerformSync accepts a request whose scope is non-trivial
(full-sync flag set, or any region, zone, host or resources entry), the sync
range handed to the started task has DeepSync forced to true, whatever the
caller passed for DeepSync. -/
theorem C9_nontrivial_scope_forces_deep_sync (p : Cloudprovider) (a : Cloudaccount)
    (input sr : SyncRangeInput)
    (hcond : input.fullSync = true ∨ input.region ≠ [] ∨ input.zone ≠ [] ∨
      input.host ≠ [] ∨ input.resources ≠ [])
    (h : p.PerformSync a input = Except.ok sr) :
    sr.deepSync = true := by
  have hC : (input.fullSync || decide (input.region.length > 0) ||
      decide (input.zone.length > 0) || decide (input.host.length > 0) ||
      decide (input.resources.length > 0)) = true := by
    rcases hcond with hc | hc | hc | hc | hc
    · simp [hc]
    · simp [List.length_pos.mpr hc]
    · simp [List.length_pos.mpr hc]
    · simp [List.length_pos.mpr hc]
    · simp [List.length_pos.mpr hc]
  unfold Cloudprovider.PerformSync at h
  by_cases hp : p.enabled = true
  · by_cases ha : a.enabled = true
    · by_cases hok : (p.canSync || input.force) = true
      · simp [Cloudprovider.PerformSync, hp, ha, hC, hok] at h
        subst h
        rfl
      · simp [Cloudprovider.PerformSync, hp, ha, hC, hok] at h
    · simp [ha] at h
  · simp [hp] at h

/-- C9 witness: a full-sync request with DeepSync = false is accepted with
DeepSync upgraded to true. -/
theorem C9_nontrivial_scope_forces_deep_sync_witness :
    ({ region := [], zone := [], host := [], resources := [], fullSync := true,
       deepSync := true, force := true } : SyncRangeInput).deepSync = true :=
  C9_nontrivial_scope_forces_deep_sync
    { enabled := true, syncStatus := SyncStatus.syncing, lastSyncEndAt := none,
      canSync := false, regions := [] }
    { enabled := true, syncStatus := SyncStatus.idle, lastSyncEndAt := none }
    { region := [], zone := [], host := [], resources := [], fullSync := true,
      deepSync := false, force := true }
    { region := [], zone := [], host := [], resources := [], fullSync := true,
      deepSync := true, force := true }
    (Or.inl rfl) rfl

/-- C3: markEndSyncWithLock moves a non-idle cloudprovider to idle, stamping
the last-sync-end time, exactly when every cloudprovider-region child is
idle; when any child is not idle the provider row is left unchanged; and the
completion propagates upward: with all children and sibling providers idle,
a non-idle owning cloudaccount is also driven to idle with its timestamp
stamped. -/
theorem C3_provider_end_sync_gated_on_children (now : Nat) (p : Cloudprovider)
    (siblings : List SyncStatus) (a : Cloudaccount) :
    (p.syncStatus ≠ SyncStatus.idle →
      (∀ c ∈ p.regions, c.syncStatus = SyncStatus.idle) →
      (p.markEndSyncWithLock now siblings a).1.syncStatus = SyncStatus.idle ∧
      (p.markEndSyncWithLock now siblings a).1.lastSyncEndAt = some now) ∧
    ((∃ c ∈ p.regions, c.syncStatus ≠ SyncStatus.idle) →
      (p.markEndSyncWithLock now siblings a).1 = p) ∧
    (p.syncStatus ≠ SyncStatus.idle →
      (∀ c ∈ p.regions, c.syncStatus = SyncStatus.idle) →
      (∀ s ∈ siblings, s = SyncStatus.idle) →
      a.syncStatus ≠ SyncStatus.idle →
      (p.markEndSyncWithLock now siblings a).2.syncStatus = SyncStatus.idle ∧
      (p.markEndSyncWithLock now siblings a).2.lastSyncEndAt = some now) := by
  refine ⟨?_, ?_, ?_⟩
  · intro hne hall
    have hgs : p.getSyncStatus2 = SyncStatus.idle := (getSyncStatus2_eq_idle_iff p).mpr hall
    simp [Cloudprovider.markEndSyncWithLock, Cloudprovider.markEndSyncLocal, hne, hgs,
      Cloudprovider.markEndSync]
  · rintro ⟨c, hc, hcne⟩
    have hgs : p.getSyncStatus2 ≠ SyncStatus.idle := by
      intro h
      exact hcne ((getSyncStatus2_eq_idle_iff p).mp h c hc)
    by_cases hp : p.syncStatus = SyncStatus.idle
    · simp [Cloudprovider.markEndSyncWithLock, Cloudprovider.markEndSyncLocal, hp]
    · simp [Cloudprovider.markEndSyncWithLock, Cloudprovider.markEndSyncLocal, hp, hgs]
  · intro hne hall hsib hane
    have hgs : p.getSyncStatus2 = SyncStatus.idle := (getSyncStatus2_eq_idle_iff p).mpr hall
    have hp1 : (p.markEndSyncLocal now).syncStatus = SyncStatus.idle := by
      simp [Cloudprovider.markEndSyncLocal, hne, hgs, Cloudprovider.markEndSync]
    have hallSts : ∀ s ∈ (p.markEndSyncLocal now).syncStatus :: siblings,
        s = SyncStatus.idle := by
      intro s hs
      rcases List.mem_cons.mp hs with h | h
      · rw [h]; exact hp1
      · exact hsib s h
    have hstamp := account_mark_end_stamp now
      ((p.markEndSyncLocal now).syncStatus :: siblings) a hallSts hane
    simp only [Cloudprovider.markEndSyncWithLock]
    rw [hstamp]
    exact ⟨rfl, rfl⟩

/-- C3 witness: a syncing provider with one idle child completes to idle and
propagates completion to its syncing account. -/
theorem C3_provider_end_sync_gated_on_children_witness :
    (({ enabled := true, syncStatus := SyncStatus.syncing, lastSyncEndAt := none,
        canSync := false,
        regions := [{ enabled := true, syncStatus := SyncStatus.idle }] } :
         Cloudprovider).markEndSyncWithLock 7 []
      { enabled := true, syncStatus := SyncStatus.syncing,
        lastSyncEndAt := none }).2.syncStatus = SyncStatus.idle :=
  ((C3_provider_end_sync_gated_on_children 7
    { enabled := true, syncStatus := SyncStatus.syncing, lastSyncEndAt := none,
      canSync := false,
      regions := [{ enabled := true, syncStatus := SyncStatus.idle }] } []
    { enabled := true, syncStatus := SyncStatus.syncing,
      lastSyncEndAt := none }).2.2 (by decide) (by decide) (by decide) (by decide)).1

end Cloudpods
